import Mathlib

/-!
Verification of the emoji-aware editable text field (`EmojiInput.tsx`) of the
chayns-components library.

The component is embedded shallowly: the React refs and state variables that
the event handlers read and write become an explicit state record
(`EmojiInputState`), and each event handler becomes a pure function from the
state (plus the event data) to a new state together with a list of observable
effects (`Effect`), listed in the order the handler performs them.

The utility modules (`utils/emoji`, `utils/text`, `utils/selection`,
`utils/insert`) are not part of the sources; the functions the handlers call
from them are modelled from the specification and marked as such.
-/

/-- An emoji shortcode dictionary: pairs of a shortcode (such as `:smile:`)
and its unicode emoji replacement. -/
abbrev EmojiDict := List (List Char × List Char)

/-- `startsWith p s` is true when `p` is a prefix of `s`. -/
def startsWith : List Char → List Char → Bool
  | [], _ => true
  | _ :: _, [] => false
  | p :: ps, c :: cs => p == c && startsWith ps cs

/-- Find the first dictionary entry whose (nonempty) shortcode is a prefix of `s`. -/
def findShortcode (dict : EmojiDict) (s : List Char) : Option (List Char × List Char) :=
  match dict with
  | [] => none
  | e :: rest => if e.1 ≠ [] ∧ startsWith e.1 s then some e else findShortcode rest s

theorem startsWith_iff (p : List Char) : ∀ s, startsWith p s = true ↔ ∃ u, p ++ u = s := by
  induction p with
  | nil =>
    intro s
    simp [startsWith]
  | cons c cs ih =>
    intro s
    cases s with
    | nil => simp [startsWith]
    | cons d ds =>
      simp only [startsWith, Bool.and_eq_true, beq_iff_eq, ih ds, List.cons_append,
        List.cons.injEq]
      constructor
      · rintro ⟨hcd, u, hu⟩
        exact ⟨u, hcd, hu⟩
      · rintro ⟨u, hcd, hu⟩
        exact ⟨hcd, u, hu⟩

theorem findShortcode_some {dict : EmojiDict} {s : List Char} {e : List Char × List Char}
    (h : findShortcode dict s = some e) :
    e.1 ≠ [] ∧ (∃ u, e.1 ++ u = s) ∧ e ∈ dict := by
  induction dict with
  | nil => simp [findShortcode] at h
  | cons d rest ih =>
    rw [findShortcode] at h
    split at h
    · rename_i hcond
      cases h
      exact ⟨hcond.1, (startsWith_iff _ _).mp hcond.2, List.mem_cons_self _ _⟩
    · have := ih h
      exact ⟨this.1, this.2.1, List.mem_cons_of_mem _ this.2.2⟩

theorem drop_length_append (p u : List Char) : (p ++ u).drop p.length = u := by
  induction p with
  | nil => simp
  | cons c cs ih => simpa using ih

/-- Modelled from the spec: `convertEmojisToUnicode` (in `utils/emoji`, not
part of the sources) converts shortcode tokens to their unicode emoji form;
malformed or unknown tokens are left as literal text. The shortcode
dictionary is a parameter (the spec treats it as an external collaborator). -/
def convertEmojisToUnicode (dict : EmojiDict) (t : List Char) : List Char :=
  match h : findShortcode dict t with
  | some e => e.2 ++ convertEmojisToUnicode dict (t.drop e.1.length)
  | none =>
    match t with
    | [] => []
    | c :: cs => c :: convertEmojisToUnicode dict cs
termination_by t.length
decreasing_by
  · obtain ⟨hne, ⟨u, hu⟩, _⟩ := findShortcode_some h
    subst hu
    have hp : 0 < e.1.length := List.length_pos.mpr hne
    simp only [List.length_append, drop_length_append]
    omega
  · simp

/-- Modelled from the spec: `escapeHTML` (in `utils/emoji`, not part of the
sources) escapes the characters that would otherwise be misinterpreted as
structural markup. -/
def escapeChar (c : Char) : List Char :=
  if c = '&' then "&amp;".toList
  else if c = '<' then "&lt;".toList
  else if c = '>' then "&gt;".toList
  else [c]

/-- Modelled from the spec: escapes every structural character of a text. -/
def escapeHTML : List Char → List Char
  | [] => []
  | c :: cs => escapeChar c ++ escapeHTML cs

/-- Modelled from the spec: the decoding of character entities that the
editable surface performs when escaped markup is handed to the native insert
command; inverse of `escapeHTML` on its image. -/
def decodeEntities : List Char → List Char
  | [] => []
  | '&' :: 'a' :: 'm' :: 'p' :: ';' :: cs => '&' :: decodeEntities cs
  | '&' :: 'l' :: 't' :: ';' :: cs => '<' :: decodeEntities cs
  | '&' :: 'g' :: 't' :: ';' :: cs => '>' :: decodeEntities cs
  | c :: cs => c :: decodeEntities cs

/-- The zero-width sentinel boundary marker (code unit 8203, U+200B). -/
def sentinelChar : Char := Char.ofNat 8203

/-- A character rendered as a non-editable inline emoji element. -/
def isEmojiChar (c : Char) : Bool := decide (0x1F300 ≤ c.toNat)

/-- Modelled from the spec: opening markup of the non-editable inline element
wrapping a rendered emoji. -/
def emojiWrapOpen : List Char := "<span contenteditable=\"false\">".toList

/-- Modelled from the spec: closing markup of the non-editable inline element. -/
def emojiWrapClose : List Char := "</span>".toList

/-- Modelled from the spec: `convertTextToHTML` (in `utils/text`, not part of
the sources) is the forward codec: it wraps every display-ready emoji in a
non-editable inline element followed by a zero-width sentinel boundary
marker; all other characters pass through. -/
def convertTextToHTML : List Char → List Char
  | [] => []
  | c :: cs =>
    if isEmojiChar c then
      emojiWrapOpen ++ [c] ++ emojiWrapClose ++ [sentinelChar] ++ convertTextToHTML cs
    else c :: convertTextToHTML cs

/-- Skip up to and including the next closing angle bracket. -/
def skipTag : List Char → List Char
  | [] => []
  | c :: cs => if c = '>' then cs else skipTag cs

theorem skipTag_length_le (l : List Char) : (skipTag l).length ≤ l.length := by
  induction l with
  | nil => simp [skipTag]
  | cons c cs ih =>
    rw [skipTag]
    split
    · simp
    · simp only [List.length_cons]
      omega

/-- Modelled from the spec: `convertHTMLToText` (in `utils/text`, not part of
the sources) is the inverse traversal: it drops element markup and zero-width
sentinel markers, decodes character entities, and concatenates the text runs. -/
def convertHTMLToText (l : List Char) : List Char :=
  match l with
  | [] => []
  | '<' :: cs => convertHTMLToText (skipTag cs)
  | '&' :: 'a' :: 'm' :: 'p' :: ';' :: cs => '&' :: convertHTMLToText cs
  | '&' :: 'l' :: 't' :: ';' :: cs => '<' :: convertHTMLToText cs
  | '&' :: 'g' :: 't' :: ';' :: cs => '>' :: convertHTMLToText cs
  | c :: cs =>
    if c = sentinelChar then convertHTMLToText cs
    else c :: convertHTMLToText cs
termination_by l.length
decreasing_by
  all_goals simp only [List.length_cons]
  · exact Nat.lt_succ_of_le (skipTag_length_le _)
  all_goals omega

/-- An observable effect performed by an event handler, in order of
occurrence. Effects name the calls the handler makes on the event object, the
editable surface, and the host callbacks. -/
inductive Effect where
  | preventDefault
  | stopPropagation
  | saveSelection (shouldIgnoreEmptyTextNodes : Bool)
  | setInnerHTML (html : List Char)
  | restoreSelection
  | callOnInput (text : List Char)
  | callOnKeyDown
  | insertInvisibleCursorMarker
  | execCommand (command : String) (arg : Option (List Char))
  | insertTextAtCursor (text : List Char) (shouldUseSavedSelection : Bool)
  | replaceTextInEditor (searchText : List Char) (pasteText : List Char)
  | dispatchInputEvent
deriving DecidableEq

/-- The state of one `EmojiInput` instance: the props and refs its event
handlers read and write. `editorExists` models whether `editorRef.current`
is non-null, `editorHTML` its `innerHTML`; `hasOnInput` and `hasOnKeyDown`
model whether the host passed the corresponding callback props. -/
structure EmojiInputState where
  isDisabled : Bool
  isPopupVisible : Bool
  editorExists : Bool
  editorHTML : List Char
  plainTextValue : List Char
  shouldDeleteOneMoreBackwards : Bool
  shouldDeleteOneMoreForwards : Bool
  hasOnInput : Bool
  hasOnKeyDown : Bool
deriving DecidableEq

/-- The state at mount: the editable surface ref is still null, and both
delete-guard flags are initialised with `useRef(false)`. -/
def initialState (value : List Char) (isDisabled isPopupVisible hasOnInput hasOnKeyDown : Bool) :
    EmojiInputState :=
  { isDisabled := isDisabled
    isPopupVisible := isPopupVisible
    editorExists := false
    editorHTML := []
    plainTextValue := value
    shouldDeleteOneMoreBackwards := false
    shouldDeleteOneMoreForwards := false
    hasOnInput := hasOnInput
    hasOnKeyDown := hasOnKeyDown }

/-- A keydown event: the key name and whether the host's `onKeyDown` callback
leaves the event with `isPropagationStopped()` true. -/
structure KeyEvent where
  key : String
  hostStopsPropagation : Bool
deriving DecidableEq

/-- `handleUpdateHTML` (EmojiInput.tsx, lines 210-226): recomputes the markup
from the given text; when it differs from the displayed fragment, saves the
selection, replaces the fragment, and restores the selection. -/
def handleUpdateHTML (dict : EmojiDict) (s : EmojiInputState) (html : List Char) :
    EmojiInputState × List Effect :=
  if s.editorExists = false then (s, [])
  else
    let newInnerHTML := convertTextToHTML (convertEmojisToUnicode dict html)
    if newInnerHTML ≠ s.editorHTML then
      ({ s with editorHTML := newInnerHTML },
        [Effect.saveSelection true, Effect.setInnerHTML newInnerHTML, Effect.restoreSelection])
    else (s, [])

/-- `handleBeforeInput` (EmojiInput.tsx, lines 228-257). -/
def handleBeforeInput (dict : EmojiDict) (s : EmojiInputState) (data : Option (List Char))
    (inputType : String) : EmojiInputState × List Effect :=
  if s.editorExists = false then (s, [])
  else if s.isDisabled then (s, [Effect.preventDefault, Effect.stopPropagation])
  else
    match data with
    | some d =>
      if inputType = "textInput" ∧ d.contains '\n' = true then
        (s, [Effect.preventDefault, Effect.stopPropagation,
          Effect.insertTextAtCursor (convertEmojisToUnicode dict d) false,
          Effect.dispatchInputEvent])
      else (s, [])
    | none => (s, [])

/-- `handleInput` (EmojiInput.tsx, lines 263-311): handles an input
notification of the editable surface. Note that the `isDisabled` branch
prevents default and stops propagation but does not return. -/
def handleInput (dict : EmojiDict) (s : EmojiInputState) : EmojiInputState × List Effect :=
  if s.editorExists = false then (s, [])
  else
    let disabledEffects : List Effect :=
      if s.isDisabled then [Effect.stopPropagation, Effect.preventDefault] else []
    if s.shouldDeleteOneMoreBackwards then
      ({ s with shouldDeleteOneMoreBackwards := false, shouldDeleteOneMoreForwards := false },
        disabledEffects ++ [Effect.preventDefault, Effect.stopPropagation,
          Effect.insertInvisibleCursorMarker])
    else if s.shouldDeleteOneMoreForwards then
      ({ s with shouldDeleteOneMoreBackwards := false, shouldDeleteOneMoreForwards := false },
        disabledEffects ++ [Effect.preventDefault, Effect.stopPropagation,
          Effect.execCommand "forwardDelete" none])
    else
      let r := handleUpdateHTML dict s s.editorHTML
      let text := convertHTMLToText r.1.editorHTML
      ({ r.1 with plainTextValue := text },
        disabledEffects ++ r.2 ++
          (if s.hasOnInput then [Effect.callOnInput text] else []))

/-- `handleKeyDown` (EmojiInput.tsx, lines 313-356). The code unit that the
native edit operation is about to remove (`getCharCodeThatWillBeDeleted`,
from `utils/selection`, which is not part of the sources) is passed in as a
parameter. -/
def handleKeyDown (s : EmojiInputState) (e : KeyEvent)
    (charCodeThatWillBeDeleted : Option Nat) : EmojiInputState × List Effect :=
  if s.isDisabled then (s, [Effect.preventDefault, Effect.stopPropagation])
  else if e.key = "Enter" ∧ s.isPopupVisible = true then (s, [Effect.preventDefault])
  else
    let keyDownEffects : List Effect :=
      if s.hasOnKeyDown then [Effect.callOnKeyDown] else []
    let enterEffects : List Effect :=
      if e.key = "Enter" ∧ e.hostStopsPropagation = false ∧ s.editorExists = true then
        [Effect.preventDefault, Effect.execCommand "insertLineBreak" none]
      else []
    let effects := keyDownEffects ++ enterEffects
    if e.key = "Backspace" ∨ e.key = "Delete" ∨ e.key = "Unidentified" then
      if charCodeThatWillBeDeleted = some 8203 then
        if e.key = "Backspace" ∨ e.key = "Unidentified" then
          ({ s with shouldDeleteOneMoreBackwards := true }, effects)
        else
          ({ s with shouldDeleteOneMoreForwards := true }, effects)
      else (s, effects)
    else (s, effects)

/-- `handlePaste` (EmojiInput.tsx, lines 378-415). -/
def handlePaste (dict : EmojiDict) (s : EmojiInputState) (clipboardText : List Char) :
    EmojiInputState × List Effect :=
  if s.editorExists = false then (s, [])
  else if s.isDisabled then (s, [Effect.preventDefault, Effect.stopPropagation])
  else
    let text := convertEmojisToUnicode dict clipboardText
    let text := escapeHTML text
    let text := if text.contains '\n' then text ++ [Char.ofNat 8204] else text
    (s, [Effect.preventDefault, Effect.execCommand "insertHTML" (some text),
      Effect.dispatchInputEvent])

/-- `handlePopupSelect` (EmojiInput.tsx, lines 468-480). -/
def handlePopupSelect (s : EmojiInputState) (emoji : List Char) :
    EmojiInputState × List Effect :=
  if s.editorExists = false then (s, [])
  else (s, [Effect.insertTextAtCursor emoji true, Effect.dispatchInputEvent])

/-- `handleInsertTextAtCursorPosition` (EmojiInput.tsx, lines 537-545): the
imperative `insertTextAtCursorPosition` operation of the ref API. -/
def handleInsertTextAtCursorPosition (s : EmojiInputState) (text : List Char) :
    EmojiInputState × List Effect :=
  if s.editorExists = false then (s, [])
  else (s, [Effect.insertTextAtCursor text false, Effect.dispatchInputEvent])

/-- `handleReplaceText` (EmojiInput.tsx, lines 547-555): the imperative
`replaceText` operation of the ref API. -/
def handleReplaceText (s : EmojiInputState) (searchText pasteText : List Char) :
    EmojiInputState × List Effect :=
  if s.editorExists = false then (s, [])
  else (s, [Effect.replaceTextInEditor searchText pasteText, Effect.dispatchInputEvent])

/-- Number of input notifications dispatched by an effect list. -/
def countDispatch : List Effect → Nat
  | [] => 0
  | Effect.dispatchInputEvent :: es => countDispatch es + 1
  | _ :: es => countDispatch es

/-- Number of explicit atomic removal operations in an effect list: removals
of the invisible marker and explicit forward-delete commands. -/
def countRemovals : List Effect → Nat
  | [] => 0
  | Effect.insertInvisibleCursorMarker :: es => countRemovals es + 1
  | Effect.execCommand c _ :: es =>
    (if c = "forwardDelete" then 1 else 0) + countRemovals es
  | _ :: es => countRemovals es

/-- Every shortcode of the dictionary starts with a colon, as the `:name:`
delimiter syntax of the spec requires. -/
def dictKeysStartWithColon (dict : EmojiDict) : Bool :=
  dict.all fun e => e.1.head? == some ':'

/-- No shortcode and no emoji replacement of the dictionary contains a
newline character. -/
def dictHasNoNewline (dict : EmojiDict) : Bool :=
  dict.all fun e => !e.1.contains '\n' && !e.2.contains '\n'

theorem contains_append (a : Char) (l₁ l₂ : List Char) :
    (l₁ ++ l₂).contains a = (l₁.contains a || l₂.contains a) := by
  induction l₁ with
  | nil => simp
  | cons c cs ih => simp [List.contains_cons, ih, Bool.or_assoc]

theorem char_beq_eq_decide (a c : Char) : (a == c) = decide (a = c) := by
  by_cases h : a = c
  · subst h
    simp
  · simp [h, beq_eq_false_iff_ne]

theorem escapeChar_contains_newline (c : Char) :
    (escapeChar c).contains '\n' = ('\n' == c) := by
  by_cases h1 : c = '&'
  · subst h1
    decide
  by_cases h2 : c = '<'
  · subst h2
    decide
  by_cases h3 : c = '>'
  · subst h3
    decide
  simp [escapeChar, h1, h2, h3, List.contains_cons]
  rw [char_beq_eq_decide]

theorem escapeChar_contains_lt (c : Char) : (escapeChar c).contains '<' = false := by
  by_cases h1 : c = '&'
  · subst h1
    decide
  by_cases h2 : c = '<'
  · subst h2
    decide
  by_cases h3 : c = '>'
  · subst h3
    decide
  simp [escapeChar, h1, h2, h3, List.contains_cons, beq_iff_eq]
  exact fun hh => h2 hh.symm

theorem escapeHTML_contains_newline (t : List Char) :
    (escapeHTML t).contains '\n' = t.contains '\n' := by
  induction t with
  | nil => rfl
  | cons c cs ih =>
    rw [escapeHTML, contains_append, ih, escapeChar_contains_newline, List.contains_cons]

theorem escapeHTML_contains_lt (t : List Char) : (escapeHTML t).contains '<' = false := by
  induction t with
  | nil => rfl
  | cons c cs ih =>
    rw [escapeHTML, contains_append, ih, escapeChar_contains_lt]
    rfl

theorem findShortcode_nil (dict : EmojiDict) : findShortcode dict [] = none := by
  induction dict with
  | nil => rfl
  | cons e rest ih =>
    rw [findShortcode, if_neg, ih]
    rintro ⟨hne, hsw⟩
    match hp : e.1 with
    | [] => exact hne hp
    | p :: ps =>
      rw [hp] at hsw
      simp [startsWith] at hsw

theorem findShortcode_none_of_no_colon {dict : EmojiDict}
    (hd : dictKeysStartWithColon dict = true) (t : List Char)
    (ht : t.contains ':' = false) : findShortcode dict t = none := by
  induction dict with
  | nil => rfl
  | cons e rest ih =>
    rw [dictKeysStartWithColon, List.all_cons, Bool.and_eq_true] at hd
    rw [findShortcode, if_neg]
    · exact ih (by rw [dictKeysStartWithColon]; exact hd.2)
    rintro ⟨hne, hsw⟩
    obtain ⟨u, hu⟩ := (startsWith_iff _ _).mp hsw
    have hhead : e.1.head? = some ':' := by
      have := hd.1
      rwa [beq_iff_eq] at this
    match hp : e.1 with
    | [] => exact hne hp
    | p :: ps =>
      rw [hp] at hhead hu
      simp only [List.head?_cons, Option.some.injEq] at hhead
      subst hhead
      rw [← hu] at ht
      simp [List.contains_cons] at ht

theorem convertEmojisToUnicode_eq_self {dict : EmojiDict}
    (hd : dictKeysStartWithColon dict = true) :
    ∀ t, t.contains ':' = false → convertEmojisToUnicode dict t = t := by
  intro t
  induction t with
  | nil =>
    intro _
    rw [convertEmojisToUnicode.eq_def]
    split
    · rename_i e heq
      rw [findShortcode_nil] at heq
      cases heq
    · rfl
  | cons c cs ih =>
    intro hc
    have hcs : cs.contains ':' = false := by
      rw [List.contains_cons, Bool.or_eq_false_iff] at hc
      exact hc.2
    rw [convertEmojisToUnicode.eq_def]
    split
    · rename_i e heq
      rw [findShortcode_none_of_no_colon hd _ hc] at heq
      cases heq
    · simp [ih hcs]

theorem convert_contains_newline_aux {dict : EmojiDict} (hd : dictHasNoNewline dict = true) :
    ∀ n t, t.length ≤ n →
      (convertEmojisToUnicode dict t).contains '\n' = t.contains '\n' := by
  intro n
  induction n with
  | zero =>
    intro t ht
    have h0 : t = [] := List.eq_nil_of_length_eq_zero (Nat.le_zero.mp ht)
    subst h0
    rw [convertEmojisToUnicode.eq_def]
    split
    · rename_i e heq
      rw [findShortcode_nil] at heq
      cases heq
    · rfl
  | succ n ihn =>
    intro t ht
    rw [convertEmojisToUnicode.eq_def]
    split
    · rename_i e heq
      obtain ⟨hne, ⟨u, hu⟩, hmem⟩ := findShortcode_some heq
      have hk : e.1.contains '\n' = false ∧ e.2.contains '\n' = false := by
        rw [dictHasNoNewline, List.all_eq_true] at hd
        have := hd e hmem
        simp only [Bool.and_eq_true, Bool.not_eq_true'] at this
        exact this
      rw [← hu, drop_length_append, contains_append, contains_append]
      have hule : u.length ≤ n := by
        have hlen : e.1.length + u.length = t.length := by
          rw [← hu, List.length_append]
        have hp : 0 < e.1.length := List.length_pos.mpr hne
        omega
      rw [ihn u hule, hk.1, hk.2]
    · cases t with
      | nil => rfl
      | cons c cs =>
        have hcs : cs.length ≤ n := by
          simp only [List.length_cons] at ht
          omega
        simp only [List.contains_cons]
        rw [ihn cs hcs]

theorem convertEmojisToUnicode_contains_newline {dict : EmojiDict}
    (hd : dictHasNoNewline dict = true) (t : List Char) :
    (convertEmojisToUnicode dict t).contains '\n' = t.contains '\n' :=
  convert_contains_newline_aux hd t.length t le_rfl

/-- Claim C1: for every keydown whose key is Backspace, Delete, or
Unidentified, if the code unit that the native edit operation is about to
remove equals the sentinel boundary marker's code (8203), the Delete Guard
sets exactly the corresponding pending flag (`shouldDeleteOneMoreBackwards`
for Backspace or Unidentified, `shouldDeleteOneMoreForwards` for Delete) and
does not prevent the native operation; for any other code unit, and for any
other key, neither pending flag is changed. Both flags are initially false.
The flag-setting part is stated for an enabled field, i.e. for keydown events
that reach the Delete Guard. -/
theorem claim1_delete_guard (s : EmojiInputState) (e : KeyEvent) (code : Option Nat) :
    (∀ v d p i k, (initialState v d p i k).shouldDeleteOneMoreBackwards = false ∧
      (initialState v d p i k).shouldDeleteOneMoreForwards = false) ∧
    (s.isDisabled = false → code = some 8203 →
      ((e.key = "Backspace" ∨ e.key = "Unidentified") →
        (handleKeyDown s e code).1.shouldDeleteOneMoreBackwards = true ∧
        (handleKeyDown s e code).1.shouldDeleteOneMoreForwards =
          s.shouldDeleteOneMoreForwards ∧
        Effect.preventDefault ∉ (handleKeyDown s e code).2) ∧
      (e.key = "Delete" →
        (handleKeyDown s e code).1.shouldDeleteOneMoreForwards = true ∧
        (handleKeyDown s e code).1.shouldDeleteOneMoreBackwards =
          s.shouldDeleteOneMoreBackwards ∧
        Effect.preventDefault ∉ (handleKeyDown s e code).2)) ∧
    ((code ≠ some 8203 ∨ (e.key ≠ "Backspace" ∧ e.key ≠ "Delete" ∧ e.key ≠ "Unidentified")) →
      (handleKeyDown s e code).1.shouldDeleteOneMoreBackwards =
        s.shouldDeleteOneMoreBackwards ∧
      (handleKeyDown s e code).1.shouldDeleteOneMoreForwards =
        s.shouldDeleteOneMoreForwards) := by
  refine ⟨fun v d p i k => ⟨rfl, rfl⟩, fun hdis hcode => ⟨fun hko => ?_, fun hk => ?_⟩, fun h => ?_⟩
  · rcases hko with hk | hk
    all_goals
      simp only [handleKeyDown, hdis, hcode, hk]
      norm_num
      cases h : s.hasOnKeyDown <;> simp
  · simp only [handleKeyDown, hdis, hcode, hk]
    norm_num
    cases h : s.hasOnKeyDown <;> simp
  · rw [handleKeyDown]
    split
    · simp
    split
    · simp
    rcases h with h | ⟨h1, h2, h3⟩
    · simp [h]
    · rw [if_neg]
      · constructor <;> rfl
      rintro (hh | hh | hh)
      · exact h1 hh
      · exact h2 hh
      · exact h3 hh

/-- Witness for C1: at a concrete enabled state, a Backspace keydown about to
remove code unit 8203 sets the backward pending flag. -/
theorem claim1_delete_guard_witness :
    (handleKeyDown ⟨false, false, true, [], [], false, false, true, true⟩
      ⟨"Backspace", false⟩ (some 8203)).1.shouldDeleteOneMoreBackwards = true :=
  (((claim1_delete_guard ⟨false, false, true, [], [], false, false, true, true⟩
    ⟨"Backspace", false⟩ (some 8203)).2.1 rfl rfl).1 (Or.inl rfl)).1

/-- Claim C10: whenever the emoji picker popup is visible, an Enter keydown is
suppressed (default prevented), the state is unchanged, the host's onKeyDown
callback is not invoked, and no line break is inserted; when the popup is not
visible and propagation was not stopped by the host (field enabled, surface
present), Enter prevents the default action and inserts a line break instead. -/
theorem claim10_enter_popup (s : EmojiInputState) (e : KeyEvent) (code : Option Nat)
    (hk : e.key = "Enter") :
    (s.isPopupVisible = true →
      (handleKeyDown s e code).1 = s ∧
      Effect.preventDefault ∈ (handleKeyDown s e code).2 ∧
      Effect.callOnKeyDown ∉ (handleKeyDown s e code).2 ∧
      Effect.execCommand "insertLineBreak" none ∉ (handleKeyDown s e code).2) ∧
    (s.isPopupVisible = false → s.isDisabled = false → e.hostStopsPropagation = false →
      s.editorExists = true →
      Effect.preventDefault ∈ (handleKeyDown s e code).2 ∧
      Effect.execCommand "insertLineBreak" none ∈ (handleKeyDown s e code).2) := by
  constructor
  · intro hpop
    cases hdis : s.isDisabled
    · simp [handleKeyDown, hk, hpop, hdis]
    · simp [handleKeyDown, hk, hpop, hdis]
  · intro hpop hdis hstop hed
    simp only [handleKeyDown, hk, hpop, hdis, hstop, hed]
    norm_num
    cases h : s.hasOnKeyDown <;> simp

/-- Witness for C10: with the popup visible at a concrete state, Enter is
prevented and the host callback is not invoked; with it hidden, a line break
is inserted. -/
theorem claim10_enter_popup_witness :
    (Effect.preventDefault ∈ (handleKeyDown ⟨false, true, true, [], [], false, false, true, true⟩
      ⟨"Enter", false⟩ none).2 ∧
     Effect.callOnKeyDown ∉ (handleKeyDown ⟨false, true, true, [], [], false, false, true, true⟩
      ⟨"Enter", false⟩ none).2) ∧
    Effect.execCommand "insertLineBreak" none ∈
      (handleKeyDown ⟨false, false, true, [], [], false, false, true, true⟩
        ⟨"Enter", false⟩ none).2 := by
  constructor
  · have h := (claim10_enter_popup ⟨false, true, true, [], [], false, false, true, true⟩
      ⟨"Enter", false⟩ none rfl).1 rfl
    exact ⟨h.2.1, h.2.2.1⟩
  · exact ((claim10_enter_popup ⟨false, false, true, [], [], false, false, true, true⟩
      ⟨"Enter", false⟩ none rfl).2 rfl rfl rfl rfl).2

/-- Claim C2: for every input notification processed (surface present) while a
pending delete flag is set, the content change is suppressed (the plain-text
state is not re-derived, the displayed fragment is untouched, and the host's
onInput listener is not called), both pending flags are cleared, and exactly
one explicit atomic removal is performed: removal of the invisible marker in
the backward case, an explicit forward-delete command in the forward case.
After every run of the input handler both pending flags are false. -/
theorem claim2_pending_input (dict : EmojiDict) (s : EmojiInputState)
    (hed : s.editorExists = true) :
    (s.shouldDeleteOneMoreBackwards = true ∨ s.shouldDeleteOneMoreForwards = true →
      (handleInput dict s).1.shouldDeleteOneMoreBackwards = false ∧
      (handleInput dict s).1.shouldDeleteOneMoreForwards = false ∧
      (handleInput dict s).1.plainTextValue = s.plainTextValue ∧
      (handleInput dict s).1.editorHTML = s.editorHTML ∧
      (∀ t, Effect.callOnInput t ∉ (handleInput dict s).2) ∧
      Effect.preventDefault ∈ (handleInput dict s).2 ∧
      Effect.stopPropagation ∈ (handleInput dict s).2 ∧
      countRemovals (handleInput dict s).2 = 1 ∧
      (s.shouldDeleteOneMoreBackwards = true →
        Effect.insertInvisibleCursorMarker ∈ (handleInput dict s).2) ∧
      (s.shouldDeleteOneMoreBackwards = false →
        Effect.execCommand "forwardDelete" none ∈ (handleInput dict s).2)) ∧
    ((handleInput dict s).1.shouldDeleteOneMoreBackwards = false ∧
     (handleInput dict s).1.shouldDeleteOneMoreForwards = false) := by
  cases hb : s.shouldDeleteOneMoreBackwards
  · cases hf : s.shouldDeleteOneMoreForwards
    · constructor
      · rintro (h | h) <;> simp at h
      · rw [handleInput]
        simp only [hed, hb, hf]
        norm_num
        rw [handleUpdateHTML]
        simp only [hed]
        norm_num
        split <;> simp [hb, hf]
    · cases hdis : s.isDisabled <;>
        simp [handleInput, hed, hb, hf, hdis, countRemovals]
  · cases hdis : s.isDisabled <;>
      simp [handleInput, hed, hb, hdis, countRemovals]

/-- Witness for C2: at a concrete state with the backward pending flag set,
the input handler clears both flags, performs exactly one removal (of the
invisible marker), and does not call the host's onInput listener. -/
theorem claim2_pending_input_witness :
    (handleInput [] ⟨false, false, true, [], [], true, false, true, true⟩).1.shouldDeleteOneMoreBackwards = false ∧
    countRemovals (handleInput [] ⟨false, false, true, [], [], true, false, true, true⟩).2 = 1 ∧
    Effect.insertInvisibleCursorMarker ∈
      (handleInput [] ⟨false, false, true, [], [], true, false, true, true⟩).2 := by
  have h := (claim2_pending_input [] ⟨false, false, true, [], [], true, false, true, true⟩
    rfl).1 (Or.inl rfl)
  exact ⟨h.1, h.2.2.2.2.2.2.2.1, h.2.2.2.2.2.2.2.2.1 rfl⟩

/-- Claim C3: for every call of the display-sync operation with plain text t
(surface present): if the markup serialized from t equals the currently
displayed fragment, the displayed content and the state are left completely
unchanged and no snapshot, replacement, or restore happens; if it differs, a
selection snapshot is taken, then the displayed fragment is replaced with the
new markup, then the selection is restored, in exactly that order. -/
theorem claim3_update_html (dict : EmojiDict) (s : EmojiInputState) (html : List Char)
    (hed : s.editorExists = true) :
    (convertTextToHTML (convertEmojisToUnicode dict html) = s.editorHTML →
      handleUpdateHTML dict s html = (s, [])) ∧
    (convertTextToHTML (convertEmojisToUnicode dict html) ≠ s.editorHTML →
      handleUpdateHTML dict s html =
        ({ s with editorHTML := convertTextToHTML (convertEmojisToUnicode dict html) },
          [Effect.saveSelection true,
           Effect.setInnerHTML (convertTextToHTML (convertEmojisToUnicode dict html)),
           Effect.restoreSelection])) := by
  constructor
  · intro h
    rw [handleUpdateHTML]
    simp [hed, h]
  · intro h
    rw [handleUpdateHTML]
    simp [hed, h]

/-- Witness for C3: at a concrete state whose displayed fragment already
equals the markup serialized from the given text, the display sync is a
no-op. -/
theorem claim3_update_html_witness :
    handleUpdateHTML [] ⟨false, false, true, [], [], false, false, true, true⟩ [] =
      (⟨false, false, true, [], [], false, false, true, true⟩, []) :=
  (claim3_update_html [] ⟨false, false, true, [], [], false, false, true, true⟩ [] rfl).1
    (by rw [@convertEmojisToUnicode_eq_self [] (by decide) [] rfl]; rfl)

/-- Claim C4 (failing part, evaluated at the failing input): while the field
is disabled, an input notification is NOT suppressed before conversion: the
handler prevents default and stops propagation but then continues, re-derives
the plain text, and calls the host's onInput listener. This contradicts the
spec's disabled-state contract and the component's own prop documentation
("Disables the input so that it cannot be changed anymore"). -/
theorem claim4_disabled_input_bug :
    handleInput [] ⟨true, false, true, 'a' :: 'b' :: 'c' :: [], [], false, false, true, true⟩ =
      (⟨true, false, true, 'a' :: 'b' :: 'c' :: [], 'a' :: 'b' :: 'c' :: [],
        false, false, true, true⟩,
       [Effect.stopPropagation, Effect.preventDefault,
        Effect.callOnInput ('a' :: 'b' :: 'c' :: [])]) := by
  have h1 : convertEmojisToUnicode [] ('a' :: 'b' :: 'c' :: []) = 'a' :: 'b' :: 'c' :: [] :=
    @convertEmojisToUnicode_eq_self [] (by decide) _ (by decide)
  have h2 : convertTextToHTML ('a' :: 'b' :: 'c' :: []) = 'a' :: 'b' :: 'c' :: [] := by decide
  rw [handleInput, handleUpdateHTML]
  simp [h1, h2, convertHTMLToText, sentinelChar]

/-- Claim C5: for every paste event occurring while the field is disabled,
the state (and with it the plain-text value) is unchanged, no synthetic input
event is dispatched, no edit command is executed, and onInput is not called. -/
theorem claim5_disabled_paste (dict : EmojiDict) (s : EmojiInputState) (clip : List Char)
    (hdis : s.isDisabled = true) :
    (handlePaste dict s clip).1 = s ∧
    Effect.dispatchInputEvent ∉ (handlePaste dict s clip).2 ∧
    (∀ cmd arg, Effect.execCommand cmd arg ∉ (handlePaste dict s clip).2) ∧
    (∀ t, Effect.callOnInput t ∉ (handlePaste dict s clip).2) := by
  cases hed : s.editorExists <;> simp [handlePaste, hdis, hed]

/-- Witness for C5: a concrete disabled paste leaves the state unchanged and
dispatches no input notification. -/
theorem claim5_disabled_paste_witness :
    (handlePaste [] ⟨true, false, true, [], 'x' :: [], false, false, true, true⟩
      ('y' :: [])).1 = ⟨true, false, true, [], 'x' :: [], false, false, true, true⟩ ∧
    Effect.dispatchInputEvent ∉
      (handlePaste [] ⟨true, false, true, [], 'x' :: [], false, false, true, true⟩
        ('y' :: [])).2 := by
  have h := claim5_disabled_paste [] ⟨true, false, true, [], 'x' :: [], false, false, true, true⟩
    ('y' :: []) rfl
  exact ⟨h.1, h.2.1⟩

/-- Claim C7: each invocation of the imperative insertTextAtCursorPosition
and replaceText operations, and each enabled paste, dispatches exactly one
input notification. -/
theorem claim7_single_notification (dict : EmojiDict) (s : EmojiInputState)
    (t st pt clip : List Char) (hed : s.editorExists = true) (hdis : s.isDisabled = false) :
    countDispatch (handleInsertTextAtCursorPosition s t).2 = 1 ∧
    countDispatch (handleReplaceText s st pt).2 = 1 ∧
    countDispatch (handlePaste dict s clip).2 = 1 := by
  refine ⟨?_, ?_, ?_⟩
  · simp [handleInsertTextAtCursorPosition, hed, countDispatch]
  · simp [handleReplaceText, hed, countDispatch]
  · rw [handlePaste]
    simp only [hed, hdis]
    norm_num
    split <;> simp [countDispatch]

/-- Witness for C7: at a concrete enabled state, the imperative insert
operation dispatches exactly one input notification. -/
theorem claim7_single_notification_witness :
    countDispatch (handleInsertTextAtCursorPosition
      ⟨false, false, true, [], [], false, false, true, true⟩ ('z' :: [])).2 = 1 :=
  (claim7_single_notification [] ⟨false, false, true, [], [], false, false, true, true⟩
    ('z' :: []) [] [] [] rfl rfl).1

/-- Claim C8: every public operation invoked while the editable surface
reference does not yet exist (display sync, imperative insert, replace,
input and before-input handling, popup emoji insertion) is a no-op: the
state is unchanged and no effect is performed. -/
theorem claim8_missing_editor (dict : EmojiDict) (s : EmojiInputState)
    (html t st pt em : List Char) (d : Option (List Char)) (ty : String)
    (hed : s.editorExists = false) :
    handleUpdateHTML dict s html = (s, []) ∧
    handleInsertTextAtCursorPosition s t = (s, []) ∧
    handleReplaceText s st pt = (s, []) ∧
    handleInput dict s = (s, []) ∧
    handleBeforeInput dict s d ty = (s, []) ∧
    handlePopupSelect s em = (s, []) := by
  refine ⟨?_, ?_, ?_, ?_, ?_, ?_⟩
  · simp [handleUpdateHTML, hed]
  · simp [handleInsertTextAtCursorPosition, hed]
  · simp [handleReplaceText, hed]
  · simp [handleInput, hed]
  · simp [handleBeforeInput, hed]
  · simp [handlePopupSelect, hed]

/-- Witness for C8: at a concrete state without a surface, the input handler
and the imperative insert operation are no-ops. -/
theorem claim8_missing_editor_witness :
    handleInput [] ⟨false, false, false, [], 'x' :: [], true, false, true, true⟩ =
      (⟨false, false, false, [], 'x' :: [], true, false, true, true⟩, []) ∧
    handleInsertTextAtCursorPosition ⟨false, false, false, [], 'x' :: [], true, false, true, true⟩
      ('z' :: []) = (⟨false, false, false, [], 'x' :: [], true, false, true, true⟩, []) := by
  have h := claim8_missing_editor [] ⟨false, false, false, [], 'x' :: [], true, false, true, true⟩
    [] ('z' :: []) [] [] [] none "insertText" rfl
  exact ⟨h.2.2.2.1, h.2.1⟩

theorem contains_iff_mem (a : Char) (l : List Char) : l.contains a = true ↔ a ∈ l := by
  simp [List.contains]

/-- Claim C9: for every enabled paste (surface present, well-formed
dictionary without newlines), the inserted content is the escaped,
emoji-converted clipboard text, with one additional invisible zero-width
non-joiner (U+200C) appended at the end exactly when the clipboard's plain
text contains a newline character. -/
theorem claim9_paste_newline_marker (dict : EmojiDict) (s : EmojiInputState)
    (clip : List Char) (hed : s.editorExists = true) (hdis : s.isDisabled = false)
    (hnl : dictHasNoNewline dict = true) :
    handlePaste dict s clip =
      (s, [Effect.preventDefault,
        Effect.execCommand "insertHTML" (some
          (if clip.contains '\n' = true
           then escapeHTML (convertEmojisToUnicode dict clip) ++ [Char.ofNat 8204]
           else escapeHTML (convertEmojisToUnicode dict clip))),
        Effect.dispatchInputEvent]) := by
  have hmem : ('\n' ∈ escapeHTML (convertEmojisToUnicode dict clip)) ↔ '\n' ∈ clip := by
    rw [← contains_iff_mem, ← contains_iff_mem, escapeHTML_contains_newline,
      convertEmojisToUnicode_contains_newline hnl]
  rw [handlePaste]
  simp only [hed, hdis]
  norm_num
  simp [hmem]

/-- Witness for C9: pasting a concrete two-line text at an enabled state
inserts the text with a zero-width non-joiner appended. -/
theorem claim9_paste_newline_marker_witness :
    handlePaste [] ⟨false, false, true, [], [], false, false, true, true⟩
      ('a' :: '\n' :: 'b' :: []) =
      (⟨false, false, true, [], [], false, false, true, true⟩,
       [Effect.preventDefault,
        Effect.execCommand "insertHTML" (some
          (if ('a' :: '\n' :: 'b' :: []).contains '\n' = true
           then escapeHTML (convertEmojisToUnicode [] ('a' :: '\n' :: 'b' :: [])) ++
             [Char.ofNat 8204]
           else escapeHTML (convertEmojisToUnicode [] ('a' :: '\n' :: 'b' :: [])))),
        Effect.dispatchInputEvent]) :=
  claim9_paste_newline_marker [] ⟨false, false, true, [], [], false, false, true, true⟩
    ('a' :: '\n' :: 'b' :: []) rfl rfl (by decide)

/-- Claim C6: for every paste with the field enabled, the clipboard's plain
text is emoji-converted and HTML-escaped before insertion, so the inserted
markup never contains a raw opening angle bracket (and hence can never become
structural markup); in particular pasting "<b>test</b>" inserts the escaped
form whose entity-decoding is exactly the literal characters <b>test</b>. -/
theorem claim6_paste_escaping (dict : EmojiDict) (s : EmojiInputState)
    (hed : s.editorExists = true) (hdis : s.isDisabled = false)
    (hcolon : dictKeysStartWithColon dict = true) :
    (∀ clip cmd arg, Effect.execCommand cmd (some arg) ∈ (handlePaste dict s clip).2 →
      arg.contains '<' = false) ∧
    handlePaste dict s ("<b>test</b>".toList) =
      (s, [Effect.preventDefault,
        Effect.execCommand "insertHTML" (some ("&lt;b&gt;test&lt;/b&gt;".toList)),
        Effect.dispatchInputEvent]) ∧
    decodeEntities ("&lt;b&gt;test&lt;/b&gt;".toList) = "<b>test</b>".toList := by
  refine ⟨?_, ?_, by decide⟩
  · intro clip cmd arg hmem
    rw [handlePaste] at hmem
    simp only [hed, hdis] at hmem
    norm_num at hmem
    split at hmem
    · simp at hmem
      rw [hmem.2, contains_append, escapeHTML_contains_lt]
      decide
    · simp at hmem
      rw [hmem.2, escapeHTML_contains_lt]
  · have hconv : convertEmojisToUnicode dict
        ['<', 'b', '>', 't', 'e', 's', 't', '<', '/', 'b', '>'] =
        ['<', 'b', '>', 't', 'e', 's', 't', '<', '/', 'b', '>'] :=
      convertEmojisToUnicode_eq_self hcolon _ (by decide)
    rw [handlePaste]
    simp [hed, hdis, hconv, escapeHTML, escapeChar]

/-- Witness for C6: pasting the concrete text "<b>test</b>" at a concrete
enabled state inserts exactly its escaped form. -/
theorem claim6_paste_escaping_witness :
    handlePaste [] ⟨false, false, true, [], [], false, false, true, true⟩
      ("<b>test</b>".toList) =
      (⟨false, false, true, [], [], false, false, true, true⟩,
       [Effect.preventDefault,
        Effect.execCommand "insertHTML" (some ("&lt;b&gt;test&lt;/b&gt;".toList)),
        Effect.dispatchInputEvent]) :=
  (claim6_paste_escaping [] ⟨false, false, true, [], [], false, false, true, true⟩
    rfl rfl (by decide)).2.1
